import Mathlib

/-!
Shallow embedding of the MongoDB-backed Composer wallet adapter
(`src/lib/wallet.js`).

The adapter persists named credentials as documents
`{name, path, valueBase64?, valueString?}` in one collection.  We model the
collection as a list of documents and every operation as a pure function on
that list; operations that the JavaScript code rejects before issuing any
database call return an `Except.error` carrying the JavaScript `Error`
message, together with the unchanged state for the stateful operations.

Binary values travel through Node's base64 codec
(`Buffer.toString('base64')` / `Buffer.from(s, 'base64')`); we implement the
standard base64 alphabet with `=` padding over byte lists and prove the
decode/encode round trip.
-/

namespace MongoWallet

/-- A JavaScript value passed to `put` or returned by `get`: a text string,
a byte buffer (bytes as naturals below 256), or any other, unsupported,
value (`of any third kind`, collapsed to one constructor since `put` treats
them all alike). -/
inductive JSValue where
  | str (s : String)
  | buf (b : List Nat)
  | other
deriving DecidableEq

/-- The base64 alphabet, as used by Node's Buffer base64 codec. -/
def b64Chars : List Char :=
  "ABCDEFGHIJKLMNOPQRSTUVWXYZabcdefghijklmnopqrstuvwxyz0123456789+/".toList

/-- Character encoding a 6-bit group. -/
def b64Char (n : Nat) : Char := b64Chars.getD n 'A'

/-- Position of a character in a character list (0 when absent). -/
def b64IndexAux (c : Char) : List Char → Nat
  | [] => 0
  | d :: rest => if d = c then 0 else b64IndexAux c rest + 1

/-- Numeric value of a base64 alphabet character. -/
def b64Index (c : Char) : Nat := b64IndexAux c b64Chars

/-- Base64 encoding of a byte list: three bytes become four characters, a
final group of one or two bytes is padded with `=`. -/
def b64EncodeList : List Nat → List Char
  | a :: b :: c :: rest =>
    b64Char (a / 4) :: b64Char (a % 4 * 16 + b / 16) ::
      b64Char (b % 16 * 4 + c / 64) :: b64Char (c % 64) :: b64EncodeList rest
  | [a, b] => [b64Char (a / 4), b64Char (a % 4 * 16 + b / 16), b64Char (b % 16 * 4), '=']
  | [a] => [b64Char (a / 4), b64Char (a % 4 * 16), '=', '=']
  | [] => []

/-- Base64 decoding of a character list: four characters become three bytes,
`=` padding shortens the final group. -/
def b64DecodeList : List Char → List Nat
  | c1 :: c2 :: c3 :: c4 :: rest =>
    if c3 = '=' then [b64Index c1 * 4 + b64Index c2 / 16]
    else if c4 = '=' then
      [b64Index c1 * 4 + b64Index c2 / 16, b64Index c2 % 16 * 16 + b64Index c3 / 4]
    else
      (b64Index c1 * 4 + b64Index c2 / 16) ::
        (b64Index c2 % 16 * 16 + b64Index c3 / 4) ::
        (b64Index c3 % 4 * 64 + b64Index c4) :: b64DecodeList rest
  | _ => []

/-- Model of `value.toString('base64')` on a Buffer. -/
def b64Encode (b : List Nat) : String := String.mk (b64EncodeList b)

/-- Model of `Buffer.from(s, 'base64')`. -/
def b64Decode (s : String) : List Nat := b64DecodeList s.toList

/-- One persisted document of the wallet collection (§3 of wallet.js's
schema): `name`, `path`, and at most one of `valueBase64` / `valueString`;
an absent field is `none`, mirroring `hasOwnProperty`. -/
structure Doc where
  name : String
  path : String
  valueBase64 : Option String
  valueString : Option String
deriving DecidableEq

/-- The collection: a sequence of documents. -/
abbrev Store := List Doc

/-- The state a `MongoDBWallet` instance fixes at construction. -/
structure MongoDBWallet where
  uri : String
  collectionName : String
  namePrefix : String
deriving DecidableEq

/-- Construction options (`uri`, `collectionName`, `namePrefix`); `none`
models an absent property, `some ""` a present but falsy one. -/
structure Config where
  uri : Option String
  collectionName : Option String
  namePrefix : Option String
deriving DecidableEq

/-- JavaScript truthiness of an optional string option. -/
def truthy : Option String → Bool
  | none => false
  | some s => s != ""

/-- Constructor validation (wallet.js lines 30–46): four checks in a fixed
order, each with its own message; `none` for `options` models a falsy
configuration argument. -/
def mkWallet (options : Option Config) : Except String MongoDBWallet :=
  match options with
  | none => Except.error "Need configuration"
  | some cfg =>
    if !truthy cfg.uri then Except.error "Need an URI to connect to MongoDB"
    else if !truthy cfg.collectionName then
      Except.error "Need a collection name for the wallet"
    else if !truthy cfg.namePrefix then Except.error "Need a namePrefix in options"
    else Except.ok
      { uri := cfg.uri.getD ""
        collectionName := cfg.collectionName.getD ""
        namePrefix := cfg.namePrefix.getD "" }

/-- The `{name, path}` filter every scoped query and write uses. -/
def matchesKey (name path : String) (d : Doc) : Bool :=
  d.name == name && d.path == path

/-- Mongoose `update(filter, card, {upsert: true, overwrite: true})`:
replace the first document matching the key filter wholesale, or insert the
card when none matches. -/
def upsertDoc (card : Doc) : Store → Store
  | [] => [card]
  | d :: rest =>
    if matchesKey card.name card.path d then card :: rest
    else d :: upsertDoc card rest

/-- Mongoose `findOne` on the key filter. -/
def findOne (name path : String) (st : Store) : Option Doc :=
  st.find? (matchesKey name path)

/-- `put(name, value)` (wallet.js lines 78–103): reject an empty name,
classify the value (Buffer → base64 into `valueBase64`, string →
`valueString`, anything else → rejection before any write), then upsert the
full replacement card.  The second component is the state after the call. -/
def put (w : MongoDBWallet) (st : Store) (name : String) (value : JSValue) :
    Except String Unit × Store :=
  if name = "" then (Except.error "Name must be specified", st)
  else
    match value with
    | JSValue.buf b =>
      (Except.ok (),
        upsertDoc
          { name := name, path := w.namePrefix
            valueBase64 := some (b64Encode b), valueString := none } st)
    | JSValue.str s =>
      (Except.ok (),
        upsertDoc
          { name := name, path := w.namePrefix
            valueBase64 := none, valueString := some s } st)
    | JSValue.other => (Except.error "Unkown type being stored", st)

/-- `remove(name)` (wallet.js lines 111–120): reject an empty name, then
delete every document matching the key filter (Mongoose `Model.remove`
deletes all matches); deleting nothing is not an error. -/
def remove (w : MongoDBWallet) (st : Store) (name : String) :
    Except String Unit × Store :=
  if name = "" then (Except.error "Name must be specified", st)
  else (Except.ok (), st.filter (fun d => !matchesKey name w.namePrefix d))

/-- `listNames()` (wallet.js lines 128–141): every document with this
instance's path, projected to its name. -/
def listNames (w : MongoDBWallet) (st : Store) : List String :=
  (st.filter (fun d => d.path == w.namePrefix)).map Doc.name

/-- `contains(name)` (wallet.js lines 152–163): reject an empty name, then
report whether `findOne` on the key filter hit a document. -/
def contains (w : MongoDBWallet) (st : Store) (name : String) :
    Except String Bool :=
  if name = "" then Except.error "Name must be specified"
  else Except.ok (findOne name w.namePrefix st).isSome

/-- `get(name)` (wallet.js lines 171–198): reject an empty name, fail when
no document matches, otherwise decode `valueBase64` first (base64 to bytes),
else `valueString`, else hit the defensive corruption branch. -/
def get (w : MongoDBWallet) (st : Store) (name : String) :
    Except String JSValue :=
  if name = "" then Except.error "Name must be specified"
  else
    match findOne name w.namePrefix st with
    | none => Except.error "The specified key does not exist"
    | some card =>
      match card.valueBase64 with
      | some v => Except.ok (JSValue.buf (b64Decode v))
      | none =>
        match card.valueString with
        | some v => Except.ok (JSValue.str v)
        | none => Except.error "Unkown type being stored"

/-- JavaScript `Map.prototype.set`: replace in place when the key is already
bound, else append the binding. -/
def mapSet (m : List (String × JSValue)) (k : String) (v : JSValue) :
    List (String × JSValue) :=
  if m.any (fun p => p.1 == k) then
    m.map (fun p => if p.1 == k then (k, v) else p)
  else m ++ [(k, v)]

/-- The `for (const key of keys)` loop of `getAll` (wallet.js lines
212–215): `get` each key in order against the state each read sees,
accumulating into the `Map`; the first rejected `get` rejects the whole
loop. -/
def getAllLoop (w : MongoDBWallet) (st : Store)
    (acc : List (String × JSValue)) :
    List String → Except String (List (String × JSValue))
  | [] => Except.ok acc
  | k :: ks =>
    match get w st k with
    | Except.error e => Except.error e
    | Except.ok v => getAllLoop w st (mapSet acc k v) ks

/-- `getAll()` (wallet.js lines 206–218): `listNames` then one `get` per
name, collected into a `Map` (here an association list in insertion
order). -/
def getAll (w : MongoDBWallet) (st : Store) :
    Except String (List (String × JSValue)) :=
  getAllLoop w st [] (listNames w st)

/-- A value `put` accepts, with buffers restricted to actual bytes. -/
def goodValue : JSValue → Prop
  | JSValue.str _ => True
  | JSValue.buf b => ∀ x ∈ b, x < 256
  | JSValue.other => False

/-- The replacement card `put` builds for a string value. -/
def strCard (w : MongoDBWallet) (name s : String) : Doc :=
  { name := name, path := w.namePrefix, valueBase64 := none, valueString := some s }

/-- The replacement card `put` builds for a buffer value. -/
def bufCard (w : MongoDBWallet) (name : String) (b : List Nat) : Doc :=
  { name := name, path := w.namePrefix
    valueBase64 := some (b64Encode b), valueString := none }

/-- A document carries exactly the encoding of a supported value: the
matching value field is set and the other value field is absent. -/
def encodes : JSValue → Doc → Prop
  | JSValue.str s, d => d.valueString = some s ∧ d.valueBase64 = none
  | JSValue.buf b, d => d.valueBase64 = some (b64Encode b) ∧ d.valueString = none
  | JSValue.other, _ => False

/-- A concrete instance used to exercise the theorems. -/
def w0 : MongoDBWallet :=
  { uri := "mongodb://localhost/test", collectionName := "wallets", namePrefix := "cards" }

/-- A second instance over the same collection with a different prefix. -/
def w1 : MongoDBWallet :=
  { uri := "mongodb://localhost/test", collectionName := "wallets", namePrefix := "other" }

/-- Decoding inverts encoding on each 6-bit group. -/
theorem b64Index_b64Char : ∀ n < 64, b64Index (b64Char n) = n := by decide

/-- No alphabet character is the padding character. -/
theorem b64Char_ne_eq : ∀ n < 64, b64Char n ≠ '=' := by decide

/-- Base64 decoding inverts base64 encoding on byte lists. -/
theorem b64DecodeList_encode : ∀ (bs : List Nat), (∀ x ∈ bs, x < 256) →
    b64DecodeList (b64EncodeList bs) = bs
  | [], _ => rfl
  | [a], h => by
    have ha : a < 256 := h a (by simp)
    have e1 : b64Index (b64Char (a / 4)) = a / 4 := b64Index_b64Char _ (by omega)
    have e2 : b64Index (b64Char (a % 4 * 16)) = a % 4 * 16 := b64Index_b64Char _ (by omega)
    simp [b64EncodeList, b64DecodeList, e1, e2]
    omega
  | [a, b], h => by
    have ha : a < 256 := h a (by simp)
    have hb : b < 256 := h b (by simp)
    have hne : b64Char (b % 16 * 4) ≠ '=' := b64Char_ne_eq _ (by omega)
    have e1 : b64Index (b64Char (a / 4)) = a / 4 := b64Index_b64Char _ (by omega)
    have e2 : b64Index (b64Char (a % 4 * 16 + b / 16)) = a % 4 * 16 + b / 16 :=
      b64Index_b64Char _ (by omega)
    have e3 : b64Index (b64Char (b % 16 * 4)) = b % 16 * 4 := b64Index_b64Char _ (by omega)
    simp [b64EncodeList, b64DecodeList, hne, e1, e2, e3]
    omega
  | a :: b :: c :: rest, h => by
    have ha : a < 256 := h a (by simp)
    have hb : b < 256 := h b (by simp)
    have hc : c < 256 := h c (by simp)
    have ih := b64DecodeList_encode rest (fun x hx => h x (by simp [hx]))
    have hne1 : b64Char (b % 16 * 4 + c / 64) ≠ '=' := b64Char_ne_eq _ (by omega)
    have hne2 : b64Char (c % 64) ≠ '=' := b64Char_ne_eq _ (by omega)
    have e1 : b64Index (b64Char (a / 4)) = a / 4 := b64Index_b64Char _ (by omega)
    have e2 : b64Index (b64Char (a % 4 * 16 + b / 16)) = a % 4 * 16 + b / 16 :=
      b64Index_b64Char _ (by omega)
    have e3 : b64Index (b64Char (b % 16 * 4 + c / 64)) = b % 16 * 4 + c / 64 :=
      b64Index_b64Char _ (by omega)
    have e4 : b64Index (b64Char (c % 64)) = c % 64 := b64Index_b64Char _ (by omega)
    simp [b64EncodeList, b64DecodeList, hne1, hne2, e1, e2, e3, e4, ih]
    omega

/-- Round trip through the string-level codec. -/
theorem b64Decode_b64Encode (b : List Nat) (h : ∀ x ∈ b, x < 256) :
    b64Decode (b64Encode b) = b :=
  b64DecodeList_encode b h

/-- The key filter in propositional form. -/
theorem matchesKey_iff (n p : String) (d : Doc) :
    matchesKey n p d = true ↔ d.name = n ∧ d.path = p := by
  simp [matchesKey]

/-- A document matches its own key. -/
theorem matchesKey_self (card : Doc) :
    matchesKey card.name card.path card = true := by
  simp [matchesKey]

/-- Unfolding of `upsertDoc` at a cons. -/
theorem upsertDoc_cons (card d : Doc) (rest : Store) :
    upsertDoc card (d :: rest) =
      if matchesKey card.name card.path d then card :: rest
      else d :: upsertDoc card rest := rfl

/-- After an upsert, `findOne` on the card's own key hits the card. -/
theorem findOne_upsertDoc_self (card : Doc) (st : Store) :
    findOne card.name card.path (upsertDoc card st) = some card := by
  induction st with
  | nil =>
    simp only [findOne]
    rw [show upsertDoc card [] = [card] from rfl,
      List.find?_cons_of_pos _ (matchesKey_self card)]
  | cons d rest ih =>
    simp only [findOne] at ih ⊢
    by_cases hm : matchesKey card.name card.path d
    · rw [upsertDoc_cons, if_pos hm, List.find?_cons_of_pos _ (matchesKey_self card)]
    · rw [upsertDoc_cons, if_neg hm, List.find?_cons_of_neg _ hm]
      exact ih

/-- An upsert is invisible to `findOne` on any key the card does not
match. -/
theorem findOne_upsertDoc_other (card : Doc) (st : Store) (n q : String)
    (h : ¬matchesKey n q card) :
    findOne n q (upsertDoc card st) = findOne n q st := by
  induction st with
  | nil =>
    simp only [findOne]
    rw [show upsertDoc card [] = [card] from rfl, List.find?_cons_of_neg _ h,
      List.find?_nil]
  | cons d rest ih =>
    simp only [findOne] at ih ⊢
    by_cases hm : matchesKey card.name card.path d
    · have hd : ¬matchesKey n q d := by
        rcases (matchesKey_iff card.name card.path d).mp hm with ⟨h1, h2⟩
        simp only [matchesKey, h1, h2] at h ⊢
        exact h
      rw [upsertDoc_cons, if_pos hm, List.find?_cons_of_neg _ h,
        List.find?_cons_of_neg _ hd]
    · rw [upsertDoc_cons, if_neg hm]
      by_cases hd : matchesKey n q d
      · rw [List.find?_cons_of_pos _ hd, List.find?_cons_of_pos _ hd]
      · rw [List.find?_cons_of_neg _ hd, List.find?_cons_of_neg _ hd]
        exact ih

/-- An upsert is invisible to a path filter for a different path. -/
theorem filter_path_upsertDoc (card : Doc) (st : Store) (q : String)
    (h : card.path ≠ q) :
    (upsertDoc card st).filter (fun d => d.path == q) =
      st.filter (fun d => d.path == q) := by
  induction st with
  | nil =>
    rw [show upsertDoc card [] = [card] from rfl,
      List.filter_cons_of_neg (by simpa using h), List.filter_nil]
  | cons d rest ih =>
    by_cases hm : matchesKey card.name card.path d
    · have hd : d.path = card.path := ((matchesKey_iff card.name card.path d).mp hm).2
      rw [upsertDoc_cons, if_pos hm, List.filter_cons_of_neg (by simpa using h),
        List.filter_cons_of_neg (by simpa [hd] using h)]
    · rw [upsertDoc_cons, if_neg hm]
      by_cases hd : d.path = q
      · rw [List.filter_cons_of_pos (by simpa using hd),
          List.filter_cons_of_pos (by simpa using hd), ih]
      · rw [List.filter_cons_of_neg (by simpa using hd),
          List.filter_cons_of_neg (by simpa using hd), ih]

/-- When the store held at most one document for the card's key, an upsert
leaves exactly that card on the key. -/
theorem filter_key_upsertDoc (card : Doc) (st : Store)
    (h : (st.filter (matchesKey card.name card.path)).length ≤ 1) :
    (upsertDoc card st).filter (matchesKey card.name card.path) = [card] := by
  induction st with
  | nil =>
    rw [show upsertDoc card [] = [card] from rfl,
      List.filter_cons_of_pos (matchesKey_self card), List.filter_nil]
  | cons d rest ih =>
    by_cases hm : matchesKey card.name card.path d
    · have hrest : rest.filter (matchesKey card.name card.path) = [] := by
        rw [List.filter_cons_of_pos hm, List.length_cons] at h
        exact List.length_eq_zero.mp (by omega)
      rw [upsertDoc_cons, if_pos hm, List.filter_cons_of_pos (matchesKey_self card),
        hrest]
    · rw [List.filter_cons_of_neg hm] at h
      rw [upsertDoc_cons, if_neg hm, List.filter_cons_of_neg hm]
      exact ih h

/-- Unfolding of `put` on a string value and a non-empty name. -/
theorem put_str (w : MongoDBWallet) (st : Store) (name s : String)
    (h : name ≠ "") :
    put w st name (JSValue.str s) = (Except.ok (), upsertDoc (strCard w name s) st) := by
  simp [put, h, strCard]

/-- Unfolding of `put` on a buffer value and a non-empty name. -/
theorem put_buf (w : MongoDBWallet) (st : Store) (name : String) (b : List Nat)
    (h : name ≠ "") :
    put w st name (JSValue.buf b) = (Except.ok (), upsertDoc (bufCard w name b) st) := by
  simp [put, h, bufCard]

/-- `get` on a found document with a binary field decodes that field. -/
theorem get_found_b64 (w : MongoDBWallet) (st : Store) (name v : String)
    (card : Doc) (h : name ≠ "") (hf : findOne name w.namePrefix st = some card)
    (hb : card.valueBase64 = some v) :
    get w st name = Except.ok (JSValue.buf (b64Decode v)) := by
  simp [get, h, hf, hb]

/-- `get` on a found document with only a string field returns it. -/
theorem get_found_str (w : MongoDBWallet) (st : Store) (name v : String)
    (card : Doc) (h : name ≠ "") (hf : findOne name w.namePrefix st = some card)
    (hb : card.valueBase64 = none) (hs : card.valueString = some v) :
    get w st name = Except.ok (JSValue.str v) := by
  simp [get, h, hf, hb, hs]

/-- `get` on a missing key is the not-found rejection. -/
theorem get_none (w : MongoDBWallet) (st : Store) (name : String)
    (h : name ≠ "") (hf : findOne name w.namePrefix st = none) :
    get w st name = Except.error "The specified key does not exist" := by
  simp [get, h, hf]

/-- `put` of any supported value succeeds and upserts a card carrying the
instance's key and exactly that value's encoding. -/
theorem put_good_spec (w : MongoDBWallet) (st : Store) (k : String) (v : JSValue)
    (h : k ≠ "") (hv : goodValue v) :
    ∃ d, put w st k v = (Except.ok (), upsertDoc d st) ∧
      d.name = k ∧ d.path = w.namePrefix ∧ encodes v d := by
  cases v with
  | str s => exact ⟨strCard w k s, put_str w st k s h, rfl, rfl, rfl, rfl⟩
  | buf b => exact ⟨bufCard w k b, put_buf w st k b h, rfl, rfl, rfl, rfl⟩
  | other => exact absurd hv (by simp [goodValue])

/-- After upserting a card that encodes a supported value on the instance's
key, `get` of that key decodes the card back to the value. -/
theorem get_upsert_self (w : MongoDBWallet) (st : Store) (k : String)
    (v : JSValue) (d : Doc) (h : k ≠ "") (hv : goodValue v)
    (hname : d.name = k) (hpath : d.path = w.namePrefix) (he : encodes v d) :
    get w (upsertDoc d st) k = Except.ok v := by
  have hf : findOne k w.namePrefix (upsertDoc d st) = some d := by
    have hself := findOne_upsertDoc_self d st
    rw [hname, hpath] at hself
    exact hself
  cases v with
  | str s => exact get_found_str w _ k s d h hf he.2 he.1
  | buf b =>
    rw [get_found_b64 w _ k (b64Encode b) d h hf he.1,
      b64Decode_b64Encode b hv]
  | other => exact absurd he (by simp [encodes])

/-- `get` only depends on the store through `findOne` on its key. -/
theorem get_eq_of_findOne_eq (w : MongoDBWallet) (st1 st2 : Store) (k : String)
    (h : findOne k w.namePrefix st1 = findOne k w.namePrefix st2) :
    get w st1 k = get w st2 k := by
  by_cases hk : k = ""
  · simp [get, hk]
  · simp only [get, if_neg hk]
    rw [h]

/-- `contains` only depends on the store through `findOne` on its key. -/
theorem contains_eq_of_findOne_eq (w : MongoDBWallet) (st1 st2 : Store) (k : String)
    (h : findOne k w.namePrefix st1 = findOne k w.namePrefix st2) :
    contains w st1 k = contains w st2 k := by
  by_cases hk : k = ""
  · simp [contains, hk]
  · simp only [contains, if_neg hk]
    rw [h]

/-- The state after a `put` is either untouched (a rejected call) or an
upsert of a card scoped to the calling instance's prefix. -/
theorem put_state (w : MongoDBWallet) (st : Store) (k : String) (v : JSValue) :
    (put w st k v).2 = st ∨
    ∃ d, (put w st k v).2 = upsertDoc d st ∧ d.path = w.namePrefix := by
  by_cases hk : k = ""
  · left; simp [put, hk]
  · cases v with
    | str s => right; exact ⟨strCard w k s, by rw [put_str w st k s hk], rfl⟩
    | buf b => right; exact ⟨bufCard w k b, by rw [put_buf w st k b hk], rfl⟩
    | other => left; simp [put, hk]

/-- `filter_key_upsertDoc`, stated on the key the card carries. -/
theorem filter_key_upsertDoc' (card : Doc) (st : Store) (n q : String)
    (hn : card.name = n) (hp : card.path = q)
    (h : (st.filter (matchesKey n q)).length ≤ 1) :
    (upsertDoc card st).filter (matchesKey n q) = [card] := by
  subst hn; subst hp
  exact filter_key_upsertDoc card st h

/-- C1: for every non-empty name k and every string s, `put(k, s)` succeeds,
stores s in the `valueString` field (with no `valueBase64`), and a
subsequent `get(k)` returns s unchanged. -/
theorem C1_put_get_string (w : MongoDBWallet) (st : Store) (k s : String)
    (h : k ≠ "") :
    (put w st k (JSValue.str s)).1 = Except.ok () ∧
    (∃ d, findOne k w.namePrefix (put w st k (JSValue.str s)).2 = some d ∧
      d.valueString = some s ∧ d.valueBase64 = none) ∧
    get w (put w st k (JSValue.str s)).2 k = Except.ok (JSValue.str s) := by
  rw [put_str w st k s h]
  exact ⟨rfl, ⟨strCard w k s, findOne_upsertDoc_self (strCard w k s) st, rfl, rfl⟩,
    get_upsert_self w st k (JSValue.str s) (strCard w k s) h trivial rfl rfl ⟨rfl, rfl⟩⟩

/-- Witness for C1 at a concrete instance, store, name and string. -/
theorem C1_witness :
    "Batman" ≠ "" ∧
    ((put w0 [] "Batman" (JSValue.str "quoteA")).1 = Except.ok () ∧
    (∃ d, findOne "Batman" w0.namePrefix (put w0 [] "Batman" (JSValue.str "quoteA")).2 = some d ∧
      d.valueString = some "quoteA" ∧ d.valueBase64 = none) ∧
    get w0 (put w0 [] "Batman" (JSValue.str "quoteA")).2 "Batman" =
      Except.ok (JSValue.str "quoteA")) :=
  ⟨by decide, C1_put_get_string w0 [] "Batman" "quoteA" (by decide)⟩

/-- C2: for every non-empty name k and every byte buffer b, `put(k, b)`
succeeds, stores the base64 encoding of b in the `valueBase64` field (with
no `valueString`), and a subsequent `get(k)` returns bytes deep-equal to b,
whatever the byte pattern. -/
theorem C2_put_get_buffer (w : MongoDBWallet) (st : Store) (k : String)
    (b : List Nat) (h : k ≠ "") (hb : ∀ x ∈ b, x < 256) :
    (put w st k (JSValue.buf b)).1 = Except.ok () ∧
    (∃ d, findOne k w.namePrefix (put w st k (JSValue.buf b)).2 = some d ∧
      d.valueBase64 = some (b64Encode b) ∧ d.valueString = none) ∧
    get w (put w st k (JSValue.buf b)).2 k = Except.ok (JSValue.buf b) := by
  rw [put_buf w st k b h]
  exact ⟨rfl, ⟨bufCard w k b, findOne_upsertDoc_self (bufCard w k b) st, rfl, rfl⟩,
    get_upsert_self w st k (JSValue.buf b) (bufCard w k b) h hb rfl rfl ⟨rfl, rfl⟩⟩

/-- Witness for C2 at a byte pattern that is not valid UTF-8. -/
theorem C2_witness :
    "zipFile" ≠ "" ∧ (∀ x ∈ [0, 255, 254, 1], x < 256) ∧
    ((put w0 [] "zipFile" (JSValue.buf [0, 255, 254, 1])).1 = Except.ok () ∧
    (∃ d, findOne "zipFile" w0.namePrefix
        (put w0 [] "zipFile" (JSValue.buf [0, 255, 254, 1])).2 = some d ∧
      d.valueBase64 = some (b64Encode [0, 255, 254, 1]) ∧ d.valueString = none) ∧
    get w0 (put w0 [] "zipFile" (JSValue.buf [0, 255, 254, 1])).2 "zipFile" =
      Except.ok (JSValue.buf [0, 255, 254, 1])) :=
  ⟨by decide, by decide,
    C2_put_get_buffer w0 [] "zipFile" [0, 255, 254, 1] (by decide) (by decide)⟩

/-- C3: overwriting a key with a second supported value (any combination of
types) leaves exactly one document for the key, carrying exactly the second
value's encoding — no stale field from the first value survives — and
`get` returns the second value. -/
theorem C3_overwrite (w : MongoDBWallet) (st : Store) (k : String)
    (v1 v2 : JSValue) (h : k ≠ "") (h1 : goodValue v1) (h2 : goodValue v2)
    (hcount : (st.filter (matchesKey k w.namePrefix)).length ≤ 1) :
    ∃ d, ((put w (put w st k v1).2 k v2).2).filter (matchesKey k w.namePrefix) = [d] ∧
      encodes v2 d ∧
      get w (put w (put w st k v1).2 k v2).2 k = Except.ok v2 := by
  rcases put_good_spec w st k v1 h h1 with ⟨d1, hp1, hn1, hq1, he1⟩
  rcases put_good_spec w (upsertDoc d1 st) k v2 h h2 with ⟨d2, hp2, hn2, hq2, he2⟩
  have hf1 : (upsertDoc d1 st).filter (matchesKey k w.namePrefix) = [d1] :=
    filter_key_upsertDoc' d1 st k w.namePrefix hn1 hq1 hcount
  have hf2 : (upsertDoc d2 (upsertDoc d1 st)).filter (matchesKey k w.namePrefix) = [d2] :=
    filter_key_upsertDoc' d2 (upsertDoc d1 st) k w.namePrefix hn2 hq2 (by rw [hf1]; simp)
  rw [hp1]
  simp only
  rw [hp2]
  exact ⟨d2, hf2, he2, get_upsert_self w (upsertDoc d1 st) k v2 d2 h h2 hn2 hq2 he2⟩

/-- Witness for C3: a string overwritten by a buffer. -/
theorem C3_witness :
    "Batman" ≠ "" ∧
    (∃ d, ((put w0 (put w0 [] "Batman" (JSValue.str "quoteA")).2 "Batman"
        (JSValue.buf [1, 2])).2).filter (matchesKey "Batman" w0.namePrefix) = [d] ∧
      encodes (JSValue.buf [1, 2]) d ∧
      get w0 (put w0 (put w0 [] "Batman" (JSValue.str "quoteA")).2 "Batman"
        (JSValue.buf [1, 2])).2 "Batman" = Except.ok (JSValue.buf [1, 2])) :=
  ⟨by decide,
    C3_overwrite w0 [] "Batman" (JSValue.str "quoteA") (JSValue.buf [1, 2])
      (by decide) trivial
      (by
        show ∀ x ∈ [(1 : Nat), 2], x < 256
        decide)
      (by decide)⟩

/-- The claim's wording fails on the code at a concrete input: the rejection
message is the code's misspelled "Unkown type being stored", not
"Unknown type being stored". -/
theorem C4_counterexample :
    (put w0 [] "k" JSValue.other).1 = Except.error "Unkown type being stored" ∧
    (put w0 [] "k" JSValue.other).1 ≠ Except.error "Unknown type being stored" := by
  constructor
  · rfl
  · intro hcontra
    have h1 : (put w0 [] "k" JSValue.other).1 = Except.error "Unkown type being stored" := rfl
    rw [h1] at hcontra
    simp at hcontra

/-- C4 as amended: `put` of a value that is neither a string nor a buffer
fails with the message "Unkown type being stored" (as the code spells it,
a generic Error) and performs no write: the state is returned unchanged. -/
theorem C4_put_unknown_type (w : MongoDBWallet) (st : Store) (k : String)
    (h : k ≠ "") :
    put w st k JSValue.other = (Except.error "Unkown type being stored", st) := by
  simp [put, h]

/-- Witness for C4's amended theorem. -/
theorem C4_witness :
    "k" ≠ "" ∧
    put w0 [] "k" JSValue.other = (Except.error "Unkown type being stored", []) :=
  ⟨by decide, C4_put_unknown_type w0 [] "k" (by decide)⟩

/-- C5: every operation is scoped to its instance's fixed prefix: a `put`
(of any key and value, successful or rejected) through an instance with
prefix A is invisible to `get`, `listNames` and `contains` through an
instance with a different prefix B over the same collection. -/
theorem C5_isolation (wA wB : MongoDBWallet) (st : Store) (k : String)
    (v : JSValue) (hAB : wA.namePrefix ≠ wB.namePrefix) :
    (∀ k2, get wB (put wA st k v).2 k2 = get wB st k2) ∧
    listNames wB (put wA st k v).2 = listNames wB st ∧
    (∀ k2, contains wB (put wA st k v).2 k2 = contains wB st k2) := by
  rcases put_state wA st k v with hst | ⟨d, hst, hpath⟩
  · rw [hst]
    exact ⟨fun _ => rfl, rfl, fun _ => rfl⟩
  · rw [hst]
    have hfind : ∀ k2, findOne k2 wB.namePrefix (upsertDoc d st) =
        findOne k2 wB.namePrefix st := by
      intro k2
      apply findOne_upsertDoc_other
      simp [matchesKey, hpath, hAB]
    refine ⟨fun k2 => get_eq_of_findOne_eq wB _ _ k2 (hfind k2), ?_,
      fun k2 => contains_eq_of_findOne_eq wB _ _ k2 (hfind k2)⟩
    simp only [listNames]
    rw [filter_path_upsertDoc d st wB.namePrefix (by rw [hpath]; exact hAB)]

/-- Witness for C5 at two concrete instances sharing a collection. -/
theorem C5_witness :
    w0.namePrefix ≠ w1.namePrefix ∧
    (get w1 (put w0 [] "zipFile" (JSValue.str "s")).2 "zipFile" = get w1 [] "zipFile" ∧
    listNames w1 (put w0 [] "zipFile" (JSValue.str "s")).2 = listNames w1 [] ∧
    contains w1 (put w0 [] "zipFile" (JSValue.str "s")).2 "zipFile" =
      contains w1 [] "zipFile") := by
  have h := C5_isolation w0 w1 [] "zipFile" (JSValue.str "s") (by decide)
  exact ⟨by decide, h.1 "zipFile", h.2.1, h.2.2 "zipFile"⟩

/-- C7: `get` of a non-empty name with no document carrying that name and
the instance's prefix fails with exactly the not-found message, a rejection
rather than a default value. -/
theorem C7_get_missing (w : MongoDBWallet) (st : Store) (k : String)
    (h : k ≠ "") (hf : ∀ d ∈ st, ¬(d.name = k ∧ d.path = w.namePrefix)) :
    get w st k = Except.error "The specified key does not exist" := by
  refine get_none w st k h (List.find?_eq_none.mpr ?_)
  intro d hd
  rw [matchesKey_iff]
  exact hf d hd

/-- Witness for C7 on a store holding only an unrelated key. -/
theorem C7_witness :
    "Robin" ≠ "" ∧
    get w0 [strCard w0 "Batman" "quoteA"] "Robin" =
      Except.error "The specified key does not exist" :=
  ⟨by decide, C7_get_missing w0 [strCard w0 "Batman" "quoteA"] "Robin" (by decide)
    (by decide)⟩

/-- C8: `remove` of a non-empty name succeeds, leaves exactly the documents
that did not match the instance's key, is a no-op when no document matched,
and is idempotent: a second `remove` succeeds and changes nothing. -/
theorem C8_remove_idempotent (w : MongoDBWallet) (st : Store) (k : String)
    (h : k ≠ "") :
    (remove w st k).1 = Except.ok () ∧
    (∀ d, d ∈ (remove w st k).2 ↔ d ∈ st ∧ matchesKey k w.namePrefix d = false) ∧
    ((∀ d ∈ st, ¬(d.name = k ∧ d.path = w.namePrefix)) → (remove w st k).2 = st) ∧
    remove w (remove w st k).2 k = remove w st k := by
  have hrw : remove w st k =
      (Except.ok (), st.filter (fun d => !matchesKey k w.namePrefix d)) := by
    simp [remove, h]
  refine ⟨by rw [hrw], ?_, ?_, ?_⟩
  · intro d
    rw [hrw]
    simp [List.mem_filter]
  · intro hf
    rw [hrw]
    simp only [Prod.snd]
    rw [List.filter_eq_self]
    intro d hd
    have hm : matchesKey k w.namePrefix d = false := by
      rw [← Bool.not_eq_true, matchesKey_iff]
      exact hf d hd
    simp [hm]
  · have hrw2 : remove w (remove w st k).2 k =
        (Except.ok (), (remove w st k).2.filter (fun d => !matchesKey k w.namePrefix d)) := by
      simp [remove, h]
    rw [hrw2, hrw]
    simp only [Prod.mk.injEq, true_and]
    rw [List.filter_eq_self]
    intro d hd
    rw [List.mem_filter] at hd
    exact hd.2

/-- Witness for C8: removing an absent key from a one-document store. -/
theorem C8_witness :
    "Robin" ≠ "" ∧
    ((remove w0 [strCard w0 "Batman" "quoteA"] "Robin").1 = Except.ok () ∧
    (∀ d, d ∈ (remove w0 [strCard w0 "Batman" "quoteA"] "Robin").2 ↔
      d ∈ [strCard w0 "Batman" "quoteA"] ∧ matchesKey "Robin" w0.namePrefix d = false) ∧
    ((∀ d ∈ [strCard w0 "Batman" "quoteA"], ¬(d.name = "Robin" ∧ d.path = w0.namePrefix)) →
      (remove w0 [strCard w0 "Batman" "quoteA"] "Robin").2 = [strCard w0 "Batman" "quoteA"]) ∧
    remove w0 (remove w0 [strCard w0 "Batman" "quoteA"] "Robin").2 "Robin" =
      remove w0 [strCard w0 "Batman" "quoteA"] "Robin") :=
  ⟨by decide, C8_remove_idempotent w0 [strCard w0 "Batman" "quoteA"] "Robin" (by decide)⟩

/-- C9: construction validates its configuration in a fixed order with fixed
message texts: no configuration, then no URI, then no collection name, then
no prefix, and a configuration supplying all four constructs the
instance. -/
theorem C9_constructor_validation :
    mkWallet none = Except.error "Need configuration" ∧
    (∀ cfg : Config, truthy cfg.uri = false →
      mkWallet (some cfg) = Except.error "Need an URI to connect to MongoDB") ∧
    (∀ cfg : Config, truthy cfg.uri = true → truthy cfg.collectionName = false →
      mkWallet (some cfg) = Except.error "Need a collection name for the wallet") ∧
    (∀ cfg : Config, truthy cfg.uri = true → truthy cfg.collectionName = true →
      truthy cfg.namePrefix = false →
      mkWallet (some cfg) = Except.error "Need a namePrefix in options") ∧
    (∀ cfg : Config, truthy cfg.uri = true → truthy cfg.collectionName = true →
      truthy cfg.namePrefix = true →
      mkWallet (some cfg) = Except.ok
        { uri := cfg.uri.getD "", collectionName := cfg.collectionName.getD "",
          namePrefix := cfg.namePrefix.getD "" }) := by
  refine ⟨rfl, ?_, ?_, ?_, ?_⟩ <;> (intro cfg; intros) <;> simp [mkWallet, *]

/-- Witness for C9: one failing and one succeeding construction. -/
theorem C9_witness :
    mkWallet (some (⟨none, some "wallets", some "cards"⟩ : Config)) =
      Except.error "Need an URI to connect to MongoDB" ∧
    mkWallet (some (⟨some "mongodb://u", some "wallets", some "cards"⟩ : Config)) =
      Except.ok (⟨"mongodb://u", "wallets", "cards"⟩ : MongoDBWallet) := by
  have h := C9_constructor_validation
  exact ⟨h.2.1 _ rfl, h.2.2.2.2 _ rfl rfl rfl⟩

/-- The freshly set binding is in the map. -/
theorem mapSet_mem_self (m : List (String × JSValue)) (k : String) (v : JSValue) :
    (k, v) ∈ mapSet m k v := by
  unfold mapSet
  by_cases h : m.any (fun p => p.1 == k)
  · rw [if_pos h]
    rcases List.any_eq_true.mp h with ⟨p, hp, hpk⟩
    refine List.mem_map.mpr ⟨p, hp, ?_⟩
    simp only [beq_iff_eq] at hpk
    simp [hpk]
  · rw [if_neg h]
    simp

/-- A binding for another key survives a set. -/
theorem mapSet_mem_of_ne (m : List (String × JSValue)) (k : String) (v : JSValue)
    (kv : String × JSValue) (hm : kv ∈ m) (hne : kv.1 ≠ k) :
    kv ∈ mapSet m k v := by
  unfold mapSet
  by_cases h : m.any (fun p => p.1 == k)
  · rw [if_pos h]
    refine List.mem_map.mpr ⟨kv, hm, ?_⟩
    simp [hne]
  · rw [if_neg h]
    exact List.mem_append_left _ hm

/-- Every binding after a set is an old binding for another key or the new
binding. -/
theorem mem_mapSet (m : List (String × JSValue)) (k : String) (v : JSValue)
    (kv : String × JSValue) (h : kv ∈ mapSet m k v) :
    (kv ∈ m ∧ kv.1 ≠ k) ∨ kv = (k, v) := by
  unfold mapSet at h
  by_cases ha : m.any (fun p => p.1 == k)
  · rw [if_pos ha] at h
    rcases List.mem_map.mp h with ⟨p, hp, him⟩
    by_cases hpk : p.1 = k
    · right
      rw [← him]
      simp [hpk]
    · left
      have hid : (if p.1 == k then (k, v) else p) = p := by simp [hpk]
      rw [hid] at him
      rw [← him]
      exact ⟨hp, hpk⟩
  · rw [if_neg ha] at h
    rcases List.mem_append.mp h with h1 | h1
    · left
      refine ⟨h1, fun hk => ?_⟩
      exact ha (List.any_eq_true.mpr ⟨kv, h1, by simp [hk]⟩)
    · right
      simpa using h1

/-- A set preserves distinctness of the map's keys. -/
theorem mapSet_keys_nodup (m : List (String × JSValue)) (k : String) (v : JSValue)
    (h : (m.map Prod.fst).Nodup) : ((mapSet m k v).map Prod.fst).Nodup := by
  unfold mapSet
  by_cases ha : m.any (fun p => p.1 == k)
  · rw [if_pos ha, List.map_map]
    have hcong : m.map (Prod.fst ∘ fun p => if p.1 == k then (k, v) else p) =
        m.map Prod.fst := by
      refine List.map_congr_left ?_
      intro p hp
      by_cases hpk : p.1 = k <;> simp [hpk]
    rw [hcong]
    exact h
  · rw [if_neg ha, List.map_append]
    simp only [List.map_cons, List.map_nil]
    refine List.nodup_append.mpr ⟨h, List.nodup_singleton k, ?_⟩
    intro a hamem hk
    rcases List.mem_map.mp hamem with ⟨p, hp, hpa⟩
    rw [List.mem_singleton] at hk
    exact ha (List.any_eq_true.mpr ⟨p, hp, by simp [hpa, hk]⟩)

/-- A successful `getAllLoop` preserves distinctness of the map's keys. -/
theorem getAllLoop_keys_nodup (w : MongoDBWallet) (st : Store) :
    ∀ (ks : List String) (acc m : List (String × JSValue)),
      (acc.map Prod.fst).Nodup → getAllLoop w st acc ks = Except.ok m →
      (m.map Prod.fst).Nodup
  | [], acc, m, hacc, heq => by
    simp only [getAllLoop] at heq
    obtain rfl := Except.ok.inj heq
    exact hacc
  | k0 :: ks, acc, m, hacc, heq => by
    cases hget : get w st k0 with
    | error e =>
      simp only [getAllLoop, hget] at heq
      exact absurd heq (by simp)
    | ok v =>
      simp only [getAllLoop, hget] at heq
      exact getAllLoop_keys_nodup w st ks (mapSet acc k0 v) m
        (mapSet_keys_nodup acc k0 v hacc) heq

/-- A `getAllLoop` over keys whose `get` all succeed returns a map that
covers every key with its decoded value, keeps every accumulated binding,
and draws every binding from the given domain. -/
theorem getAllLoop_ok (w : MongoDBWallet) (st : Store) (dom : List String) :
    ∀ (ks : List String) (acc : List (String × JSValue)),
      (∀ k ∈ ks, ∃ v, get w st k = Except.ok v) →
      (∀ k ∈ ks, k ∈ dom) →
      (∀ kv ∈ acc, get w st kv.1 = Except.ok kv.2 ∧ kv.1 ∈ dom) →
      ∃ m, getAllLoop w st acc ks = Except.ok m ∧
        (∀ kv ∈ m, get w st kv.1 = Except.ok kv.2 ∧ kv.1 ∈ dom) ∧
        (∀ kv ∈ acc, kv ∈ m) ∧
        (∀ k ∈ ks, ∃ v, (k, v) ∈ m ∧ get w st k = Except.ok v)
  | [], acc, _, _, hacc => ⟨acc, rfl, hacc, fun _ hkv => hkv, by simp⟩
  | k0 :: ks, acc, hok, hdom, hacc => by
    rcases hok k0 (by simp) with ⟨v0, hv0⟩
    have hacc2 : ∀ kv ∈ mapSet acc k0 v0,
        get w st kv.1 = Except.ok kv.2 ∧ kv.1 ∈ dom := by
      intro kv hkv
      rcases mem_mapSet acc k0 v0 kv hkv with ⟨hin, _⟩ | heq
      · exact hacc kv hin
      · rw [heq]
        exact ⟨hv0, hdom k0 (by simp)⟩
    rcases getAllLoop_ok w st dom ks (mapSet acc k0 v0)
        (fun k hk => hok k (by simp [hk]))
        (fun k hk => hdom k (by simp [hk])) hacc2 with ⟨m, hm, hmall, hmon, hcov⟩
    have hkeep : ∀ kv ∈ acc, kv ∈ mapSet acc k0 v0 := by
      intro kv hkv
      by_cases hk : kv.1 = k0
      · rcases kv with ⟨a, b⟩
        simp only at hk
        subst hk
        have h1 := (hacc (a, b) hkv).1
        simp only at h1
        rw [h1] at hv0
        obtain rfl := Except.ok.inj hv0
        exact mapSet_mem_self acc a b
      · exact mapSet_mem_of_ne acc k0 v0 kv hkv hk
    refine ⟨m, ?_, hmall, fun kv hkv => hmon kv (hkeep kv hkv), ?_⟩
    · simp only [getAllLoop, hv0]
      exact hm
    · intro k hk
      rcases List.mem_cons.mp hk with rfl | hk2
      · exact ⟨v0, hmon (k, v0) (mapSet_mem_self acc k v0), hv0⟩
      · exact hcov k hk2

/-- A loop over keys one of which rejects as not-found (and none fails
another way) rejects with the not-found error. -/
theorem getAllLoop_notfound (w : MongoDBWallet) (st : Store) :
    ∀ (ks : List String) (acc : List (String × JSValue)),
      (∃ k ∈ ks, get w st k = Except.error "The specified key does not exist") →
      (∀ k ∈ ks, (∃ v, get w st k = Except.ok v) ∨
        get w st k = Except.error "The specified key does not exist") →
      getAllLoop w st acc ks = Except.error "The specified key does not exist"
  | [], _, hex, _ => by simp at hex
  | k0 :: ks, acc, hex, hall => by
    rcases hall k0 (by simp) with ⟨v0, hv0⟩ | hv0
    · have hex2 : ∃ k ∈ ks,
          get w st k = Except.error "The specified key does not exist" := by
        rcases hex with ⟨k, hk, hkerr⟩
        rcases List.mem_cons.mp hk with rfl | hk2
        · rw [hv0] at hkerr
          simp at hkerr
        · exact ⟨k, hk2, hkerr⟩
      simp only [getAllLoop, hv0]
      exact getAllLoop_notfound w st ks (mapSet acc k0 v0) hex2
        (fun k hk => hall k (by simp [hk]))
    · simp [getAllLoop, hv0]

/-- C6: `getAll` is `listNames` followed by one `get` per listed name: an
empty listing yields the empty map and no error; when every listed name
gets successfully, the result binds each listed name to its decoded value,
with distinct keys and no other bindings; and the loop propagates the
not-found rejection of a key that has no document by the time its `get`
runs (every other `get` succeeding or failing the same way). -/
theorem C6_getAll_spec (w : MongoDBWallet) (st : Store) :
    (listNames w st = [] → getAll w st = Except.ok []) ∧
    ((∀ k ∈ listNames w st, ∃ v, get w st k = Except.ok v) →
      ∃ m, getAll w st = Except.ok m ∧ (m.map Prod.fst).Nodup ∧
        (∀ kv ∈ m, kv.1 ∈ listNames w st ∧ get w st kv.1 = Except.ok kv.2) ∧
        (∀ k ∈ listNames w st, ∃ v, (k, v) ∈ m ∧ get w st k = Except.ok v)) ∧
    (∀ ks : List String,
      (∃ k ∈ ks, get w st k = Except.error "The specified key does not exist") →
      (∀ k ∈ ks, (∃ v, get w st k = Except.ok v) ∨
        get w st k = Except.error "The specified key does not exist") →
      getAllLoop w st [] ks = Except.error "The specified key does not exist") := by
  refine ⟨?_, ?_, ?_⟩
  · intro h
    unfold getAll
    rw [h]
    rfl
  · intro hok
    rcases getAllLoop_ok w st (listNames w st) (listNames w st) [] hok
        (fun _ hk => hk) (by simp) with ⟨m, hm, hmall, _, hcov⟩
    exact ⟨m, hm, getAllLoop_keys_nodup w st (listNames w st) [] m (by simp) hm,
      fun kv hkv => ⟨(hmall kv hkv).2, (hmall kv hkv).1⟩, hcov⟩
  · intro ks hex hall
    exact getAllLoop_notfound w st ks [] hex hall

/-- Witness for C6: a one-document store for the success parts, and a loop
hitting a vanished key for the propagation part. -/
theorem C6_witness :
    getAll w0 [] = Except.ok [] ∧
    (∃ m, getAll w0 [strCard w0 "Batman" "quoteA"] = Except.ok m ∧
      (m.map Prod.fst).Nodup ∧
      (∀ kv ∈ m, kv.1 ∈ listNames w0 [strCard w0 "Batman" "quoteA"] ∧
        get w0 [strCard w0 "Batman" "quoteA"] kv.1 = Except.ok kv.2) ∧
      (∀ k ∈ listNames w0 [strCard w0 "Batman" "quoteA"], ∃ v,
        (k, v) ∈ m ∧ get w0 [strCard w0 "Batman" "quoteA"] k = Except.ok v)) ∧
    getAllLoop w0 [] [] ["ghost"] =
      Except.error "The specified key does not exist" := by
  refine ⟨(C6_getAll_spec w0 []).1 rfl, ?_, ?_⟩
  · refine (C6_getAll_spec w0 [strCard w0 "Batman" "quoteA"]).2.1 ?_
    intro k hk
    have hnames : listNames w0 [strCard w0 "Batman" "quoteA"] = ["Batman"] := rfl
    rw [hnames, List.mem_singleton] at hk
    subst hk
    exact ⟨JSValue.str "quoteA",
      get_found_str w0 _ "Batman" "quoteA" (strCard w0 "Batman" "quoteA")
        (by decide) rfl rfl rfl⟩
  · refine (C6_getAll_spec w0 []).2.2 ["ghost"] ⟨"ghost", by simp, ?_⟩ ?_
    · exact get_none w0 [] "ghost" (by decide) rfl
    · intro k hk
      rw [List.mem_singleton] at hk
      subst hk
      exact Or.inr (get_none w0 [] "ghost" (by decide) rfl)

/-- C10: when a found document abnormally carries both value fields, `get`
prefers the binary interpretation — it base64-decodes `valueBase64` and
ignores `valueString` — and the defensive "Unkown type being stored" branch
is reached exactly when neither field is present. -/
theorem C10_base64_precedence (w : MongoDBWallet) (st : Store) (k : String)
    (d : Doc) (h : k ≠ "") (hf : findOne k w.namePrefix st = some d) :
    (∀ bs s, d.valueBase64 = some bs → d.valueString = some s →
      get w st k = Except.ok (JSValue.buf (b64Decode bs))) ∧
    (get w st k = Except.error "Unkown type being stored" ↔
      d.valueBase64 = none ∧ d.valueString = none) := by
  constructor
  · intro bs s hb _
    exact get_found_b64 w st k bs d h hf hb
  · constructor
    · intro he
      cases hb : d.valueBase64 with
      | some v =>
        rw [get_found_b64 w st k v d h hf hb] at he
        simp at he
      | none =>
        cases hs : d.valueString with
        | some v =>
          rw [get_found_str w st k v d h hf hb hs] at he
          simp at he
        | none => exact ⟨rfl, rfl⟩
    · rintro ⟨hb, hs⟩
      simp [get, h, hf, hb, hs]

/-- Witness for C10 at a document carrying both fields. -/
theorem C10_witness :
    "odd" ≠ "" ∧
    findOne "odd" w0.namePrefix
      [(⟨"odd", "cards", some "QQ==", some "ignored"⟩ : Doc)] =
      some (⟨"odd", "cards", some "QQ==", some "ignored"⟩ : Doc) ∧
    get w0 [(⟨"odd", "cards", some "QQ==", some "ignored"⟩ : Doc)] "odd" =
      Except.ok (JSValue.buf (b64Decode "QQ==")) := by
  refine ⟨by decide, by decide, ?_⟩
  exact (C10_base64_precedence w0 _ "odd"
      (⟨"odd", "cards", some "QQ==", some "ignored"⟩ : Doc) (by decide) (by decide)).1
    "QQ==" "ignored" rfl rfl

end MongoWallet
